import Mathlib

/-!
Verification of the retarget-io-cat3 character-transport core
(`src/cy_retarget_io.c`): the newline-translating write path, the
line-terminated read path, the session lifecycle (mutex flag, init,
deinit) and the bounded shutdown wait are embedded as executable Lean
functions and their specified properties are proved.

Bytes are modelled as `Nat` (the C `char` values actually compared are
`'\n' = 10` and `'\r' = 13`); transmitted output is accumulated in an
explicit list, standing for the sequence of bytes handed to
`XMC_UART_CH_Transmit` in order.
-/

namespace Retarget

/-- Byte value of the line-feed character `'\n'`. -/
def LF : Nat := 10

/-- Byte value of the carriage-return character `'\r'`. -/
def CR : Nat := 13

/-- The success result code `CY_RSLT_SUCCESS` (value 0). -/
def CY_RSLT_SUCCESS : Nat := 0

/-- Transmit-side state: `out` is the sequence of bytes transmitted so far
(each byte handed to the UART transmit register, in order) and `prev` is
the static `cy_retarget_io_stdout_prev_char` variable tracking the
previous character sent to the output stream. -/
structure TxState where
  out : List Nat
  prev : Nat
deriving DecidableEq, Repr

/-- Embedding of `cy_retarget_io_putchar`: sends a single character to the
transmit buffer (`XMC_UART_CH_Transmit`) and unconditionally returns
`CY_RSLT_SUCCESS`. -/
def cy_retarget_io_putchar (c : Nat) (s : TxState) : Nat × TxState :=
  (CY_RSLT_SUCCESS, { s with out := s.out ++ [c] })

/-- Embedding of the loop body of the GNU `_write` hook
(`for (; nChars < len; ++nChars)`), processing the remaining buffer bytes.
The argument `convert` records whether the build defines
`CY_RETARGET_IO_CONVERT_LF_TO_CRLF`; when it is `false` the two guarded
regions (the carriage-return insertion and the `prev` update) are compiled
out, exactly as in the source.  Returns the final `nChars` and the final
transmit-side state. -/
def writeLoop (convert : Bool) : List Nat → Nat → TxState → Nat × TxState
  | [], n, s => (n, s)
  | c :: rest, n, s =>
    let first :=
      if convert = true ∧ c = LF ∧ s.prev ≠ CR then cy_retarget_io_putchar CR s
      else (CY_RSLT_SUCCESS, s)
    let second :=
      if first.1 = CY_RSLT_SUCCESS then cy_retarget_io_putchar c first.2
      else first
    if second.1 ≠ CY_RSLT_SUCCESS then (n, second.2)
    else
      writeLoop convert rest (n + 1)
        (if convert = true then { second.2 with prev := c } else second.2)

/-- Embedding of the GNU `_write(fd, ptr, len)` hook.  A `none` pointer is
the NULL buffer: the loop is skipped and `nChars = 0` is returned with the
state untouched (no peripheral access).  A `some buf` pointer stands for a
valid buffer whose `len` bytes are `buf` (the `fd` argument is ignored by
the source).  The mutex acquire/release around the loop has no effect on
the sequential transmit state and is treated separately in the
concurrency model below. -/
def _write (ptr : Option (List Nat)) (convert : Bool) (s : TxState) :
    Nat × TxState :=
  match ptr with
  | none => (0, s)
  | some buf => writeLoop convert buf 0 s

/-- Closed form of the translated output stream: before each line-feed
whose predecessor byte was not a carriage return, a carriage return is
inserted; every byte is then emitted and becomes the new predecessor.
This is the specification-side description of the line-ending policy,
to be compared with `writeLoop`. -/
def crlfExpand (prev : Nat) : List Nat → List Nat
  | [] => []
  | c :: rest =>
    (if c = LF ∧ prev ≠ CR then [CR] else []) ++ c :: crlfExpand c rest

/-- Folding the last-element-with-default accessor over a cons cell, stated
in the `getLast?.getD` normal form that `simp` produces. -/
lemma getLast?_getD_cons (c d : Nat) (rest : List Nat) :
    (c :: rest).getLast?.getD d = rest.getLast?.getD c := by
  rw [← List.getLastD_eq_getLast?, ← List.getLastD_eq_getLast?, List.getLastD_cons]

/-- Closed form of the write loop: it always processes the whole buffer
(the transmit primitive cannot fail), appends the translated (or raw)
bytes to the output, and tracks the last buffer byte in `prev` exactly
when translation is enabled. -/
lemma writeLoop_eq (convert : Bool) (buf : List Nat) :
    ∀ (n : Nat) (s : TxState),
      writeLoop convert buf n s =
        (n + buf.length,
         ⟨s.out ++ (if convert then crlfExpand s.prev buf else buf),
          if convert then buf.getLastD s.prev else s.prev⟩) := by
  induction buf with
  | nil =>
    intro n s
    simp [writeLoop, crlfExpand]
  | cons c rest ih =>
    intro n s
    rcases convert with _ | _
    · simp [writeLoop, cy_retarget_io_putchar, CY_RSLT_SUCCESS, ih, crlfExpand]
      omega
    · by_cases hcond : c = LF ∧ s.prev ≠ CR
      · simp [writeLoop, cy_retarget_io_putchar, CY_RSLT_SUCCESS, hcond, ih,
          crlfExpand, getLast?_getD_cons]
        omega
      · simp [writeLoop, cy_retarget_io_putchar, CY_RSLT_SUCCESS, hcond, ih,
          crlfExpand, getLast?_getD_cons]
        omega

/-- The translated stream of a line-feed-free buffer is the buffer itself. -/
lemma crlfExpand_no_lf (S : List Nat) :
    ∀ (prev : Nat), (∀ b ∈ S, b ≠ LF) → crlfExpand prev S = S := by
  induction S with
  | nil => intro prev _; rfl
  | cons c rest ih =>
    intro prev h
    have hc : c ≠ LF := h c (by simp)
    simp [crlfExpand, hc, ih c fun b hb => h b (by simp [hb])]

/-- C1: on the translation-enabled write path, a carriage return is
transmitted immediately before a byte `c` exactly when `c` is a line feed
and the previously transmitted byte was not a carriage return, and `c`
itself is always transmitted right after (first conjunct, the per-byte
step of the write loop); consequently writing `"\n"` when the previous
byte was not `'\r'` outputs `"\r\n"`, and writing `"\r\n"` outputs
exactly `"\r\n"` with no duplicated carriage return. -/
theorem c1_lf_to_crlf :
    (∀ (c : Nat) (rest : List Nat) (n : Nat) (s : TxState),
       writeLoop true (c :: rest) n s =
         writeLoop true rest (n + 1)
           ⟨s.out ++ (if c = LF ∧ s.prev ≠ CR then [CR] else []) ++ [c], c⟩) ∧
    (∀ prev, prev ≠ CR →
       (_write (some [LF]) true ⟨[], prev⟩).2.out = [CR, LF]) ∧
    (∀ prev, (_write (some [CR, LF]) true ⟨[], prev⟩).2.out = [CR, LF]) := by
  refine ⟨?_, ?_, ?_⟩
  · intro c rest n s
    by_cases hcond : c = LF ∧ s.prev ≠ CR
    · simp [writeLoop, cy_retarget_io_putchar, CY_RSLT_SUCCESS, hcond]
    · simp [writeLoop, cy_retarget_io_putchar, CY_RSLT_SUCCESS, hcond]
  · intro prev hprev
    simp [_write, writeLoop_eq, crlfExpand, hprev]
  · intro prev
    simp [_write, writeLoop_eq, crlfExpand, CR, LF]

/-- Witness for C1 at a concrete input: writing a lone line feed when the
previous byte was `0` (not a carriage return) transmits `"\r\n"`. -/
theorem c1_lf_to_crlf_witness :
    (_write (some [LF]) true ⟨[], 0⟩).2.out = [CR, LF] :=
  c1_lf_to_crlf.2.1 0 (by decide)

/-- C2: the `cy_retarget_io_stdout_prev_char` state persists across write
calls: after a write call the state holds the last buffer byte transmitted
by that call (or the prior state for an empty buffer), and a line feed
arriving as the first byte of the next call is prepended with a carriage
return exactly when that last transmitted byte was not a carriage
return. -/
theorem c2_prev_char_persists (xs ys : List Nat) (s0 : TxState) :
    ((_write (some xs) true s0).2.prev = xs.getLastD s0.prev) ∧
    ((_write (some (LF :: ys)) true (_write (some xs) true s0).2).2.out =
       (_write (some xs) true s0).2.out ++
         (if xs.getLastD s0.prev ≠ CR then [CR] else []) ++
         LF :: crlfExpand LF ys) := by
  constructor
  · simp [_write, writeLoop_eq]
  · by_cases hlast : xs.getLastD s0.prev = CR
    · simp [_write, writeLoop_eq, crlfExpand, hlast, getLast?_getD_cons,
        List.getLastD_eq_getLast?]
    · simp [_write, writeLoop_eq, crlfExpand, hlast, getLast?_getD_cons,
        List.getLastD_eq_getLast?]

/-- C6: a buffer with no line-feed byte is transmitted unchanged, whether
line-ending translation is enabled or disabled: the outputs coincide and
equal the buffer itself. -/
theorem c6_no_lf_passthrough (S : List Nat) (prev : Nat)
    (h : ∀ b ∈ S, b ≠ LF) :
    (_write (some S) true ⟨[], prev⟩).2.out = S ∧
    (_write (some S) false ⟨[], prev⟩).2.out = S := by
  constructor
  · simp [_write, writeLoop_eq, crlfExpand_no_lf S prev h]
  · simp [_write, writeLoop_eq]

/-- Witness for C6 at a concrete input: the line-feed-free buffer
`"hi" = [104, 105]` passes through both configurations unchanged. -/
theorem c6_no_lf_passthrough_witness :
    (_write (some [104, 105]) true ⟨[], 0⟩).2.out = [104, 105] ∧
    (_write (some [104, 105]) false ⟨[], 0⟩).2.out = [104, 105] :=
  c6_no_lf_passthrough [104, 105] 0 (by decide)

/-- C9: `cy_retarget_io_putchar` unconditionally returns success, so the
early-exit branch of the write loop is unreachable and `_write` on a
non-null buffer always reports the full buffer length as written. -/
theorem c9_write_full_length (buf : List Nat) (convert : Bool)
    (s : TxState) :
    (_write (some buf) convert s).1 = buf.length := by
  simp [_write, writeLoop_eq]

/-- Embedding of `cy_retarget_io_getchar`: blocks polling the receive
status flags until data arrives, reads the received byte, clears the
flags and unconditionally returns `CY_RSLT_SUCCESS`.  The serial input is
modelled as an infinite stream `stream : Nat → Nat` (the call blocks until
a byte exists, so a byte is always obtained); `pos` is the number of bytes
consumed so far. -/
def cy_retarget_io_getchar (stream : Nat → Nat) (pos : Nat) : Nat × Nat :=
  (CY_RSLT_SUCCESS, stream pos)

/-- A byte that terminates a `_read` call: line feed or carriage return
(the source condition is written in this same order). -/
abbrev isLineTerm (c : Nat) : Prop := c = LF ∨ c = CR

/-- Embedding of the loop of the GNU `_read` hook
(`for (; nChars < len; ++ptr)`): each received byte is appended to the
buffer and counted, and the loop stops early right after storing a line
feed or carriage return.  Returns the bytes stored into the buffer. -/
def readLoop (stream : Nat → Nat) : Nat → Nat → List Nat
  | _, 0 => []
  | pos, len + 1 =>
    let c := (cy_retarget_io_getchar stream pos).2
    if isLineTerm c then [c]
    else c :: readLoop stream (pos + 1) len

/-- Embedding of the GNU `_read(fd, ptr, len)` hook: a `none` pointer is
the NULL buffer, skipping the loop and returning 0 with nothing received;
otherwise the loop fills the buffer from the stream and `nChars` (the
number of stored bytes) is returned together with the stored bytes. -/
def _read (ptr : Option Unit) (len : Nat) (stream : Nat → Nat) :
    Nat × List Nat :=
  match ptr with
  | none => (0, [])
  | some _ => ((readLoop stream 0 len).length, readLoop stream 0 len)

lemma readLoop_length_le (stream : Nat → Nat) :
    ∀ (len pos : Nat), (readLoop stream pos len).length ≤ len := by
  intro len
  induction len with
  | zero => intro pos; simp [readLoop]
  | succ k ih =>
    intro pos
    by_cases h : isLineTerm (stream pos)
    · simp [readLoop, cy_retarget_io_getchar, h]
    · simp only [readLoop, cy_retarget_io_getchar, h, if_neg, not_false_iff,
        List.length_cons]
      exact Nat.succ_le_succ (ih (pos + 1))

lemma readLoop_length_pos (stream : Nat → Nat) (len pos : Nat)
    (h : 0 < len) : 0 < (readLoop stream pos len).length := by
  rcases len with _ | k
  · omega
  · by_cases ht : isLineTerm (stream pos) <;>
      simp [readLoop, cy_retarget_io_getchar, ht]

lemma readLoop_getD (stream : Nat → Nat) :
    ∀ (len pos i : Nat), i < (readLoop stream pos len).length →
      (readLoop stream pos len).getD i 0 = stream (pos + i) := by
  intro len
  induction len with
  | zero => intro pos i hi; simp [readLoop] at hi
  | succ k ih =>
    intro pos i hi
    by_cases ht : isLineTerm (stream pos)
    · simp [readLoop, cy_retarget_io_getchar, ht] at hi
      have hi0 : i = 0 := by omega
      subst hi0
      simp [readLoop, cy_retarget_io_getchar, ht]
    · simp only [readLoop, cy_retarget_io_getchar, ht, if_neg,
        not_false_iff] at hi ⊢
      rcases i with _ | j
      · simp
      · simp only [List.getD_cons_succ]
        have := ih (pos + 1) j (by simpa using hi)
        rw [this]
        congr 1
        omega

lemma readLoop_no_interior_term (stream : Nat → Nat) :
    ∀ (len pos i : Nat), i + 1 < (readLoop stream pos len).length →
      ¬isLineTerm (stream (pos + i)) := by
  intro len
  induction len with
  | zero => intro pos i hi; simp [readLoop] at hi
  | succ k ih =>
    intro pos i hi
    by_cases ht : isLineTerm (stream pos)
    · simp [readLoop, cy_retarget_io_getchar, ht] at hi
    · simp only [readLoop, cy_retarget_io_getchar, ht, if_neg,
        not_false_iff, List.length_cons] at hi
      rcases i with _ | j
      · simpa using ht
      · have := ih (pos + 1) j (by omega)
        simpa [Nat.add_assoc, Nat.add_comm, Nat.add_left_comm] using this

lemma readLoop_stops_at_term (stream : Nat → Nat) :
    ∀ (len pos : Nat), (readLoop stream pos len).length < len →
      ∃ t, (readLoop stream pos len).getLast? = some t ∧ isLineTerm t := by
  intro len
  induction len with
  | zero => intro pos h; omega
  | succ k ih =>
    intro pos h
    by_cases ht : isLineTerm (stream pos)
    · refine ⟨stream pos, ?_, ht⟩
      simp [readLoop, cy_retarget_io_getchar, ht]
    · simp only [readLoop, cy_retarget_io_getchar, ht, if_neg,
        not_false_iff, List.length_cons] at h ⊢
      have hlt : (readLoop stream (pos + 1) k).length < k := by omega
      obtain ⟨t, htl, htt⟩ := ih (pos + 1) hlt
      refine ⟨t, ?_, htt⟩
      have hne : readLoop stream (pos + 1) k ≠ [] := by
        intro hnil
        rw [hnil] at htl
        simp at htl
      rcases hrl : readLoop stream (pos + 1) k with _ | ⟨x, xs⟩
      · exact absurd hrl hne
      · rw [hrl] at htl
        simpa [List.getLast?_cons_cons] using htl

lemma readLoop_full_of_no_term (stream : Nat → Nat) :
    ∀ (len pos : Nat), (∀ i, i < len → ¬isLineTerm (stream (pos + i))) →
      (readLoop stream pos len).length = len := by
  intro len
  induction len with
  | zero => intro pos _; simp [readLoop]
  | succ k ih =>
    intro pos h
    have h0 : ¬isLineTerm (stream pos) := by
      have := h 0 (by omega)
      simpa using this
    simp only [readLoop, cy_retarget_io_getchar, h0, if_neg, not_false_iff,
      List.length_cons]
    rw [ih (pos + 1)]
    intro i hi
    have := h (i + 1) (by omega)
    simpa [Nat.add_assoc, Nat.add_comm, Nat.add_left_comm] using this

/-- Input stream for the concrete examples: the bytes of
`"hello\nworld"` followed by zeros. -/
def helloStream : Nat → Nat := fun i =>
  [104, 101, 108, 108, 111, 10, 119, 111, 114, 108, 100].getD i 0

/-- C3: `_read` on a non-null buffer receives bytes one at a time from the
stream, appending each to the buffer, and stops exactly when `len` bytes
are stored or a line-feed/carriage-return byte is received; the terminator
is stored and counted.  Concretely, reading up to 10 bytes from
`"hello\nworld"` returns 6 with the buffer holding `"hello\n"`, and
reading up to 3 bytes from a stream with no terminator in its first 3
bytes returns exactly 3. -/
theorem c3_read_until_terminator (stream : Nat → Nat) (len : Nat) :
    ((_read (some ()) len stream).1 = (_read (some ()) len stream).2.length) ∧
    ((_read (some ()) len stream).2.length ≤ len) ∧
    (∀ i, i < (_read (some ()) len stream).2.length →
       (_read (some ()) len stream).2.getD i 0 = stream i) ∧
    (∀ i, i + 1 < (_read (some ()) len stream).2.length →
       ¬isLineTerm (stream i)) ∧
    ((_read (some ()) len stream).2.length < len →
       ∃ t, (_read (some ()) len stream).2.getLast? = some t ∧ isLineTerm t) ∧
    ((∀ i, i < len → ¬isLineTerm (stream i)) →
       (_read (some ()) len stream).1 = len) ∧
    (_read (some ()) 10 helloStream = (6, [104, 101, 108, 108, 111, 10])) ∧
    ((_read (some ()) 3 helloStream).1 = 3) := by
  refine ⟨rfl, readLoop_length_le stream len 0, ?_, ?_, ?_, ?_, by decide, by decide⟩
  · intro i hi
    have := readLoop_getD stream len 0 i hi
    simpa using this
  · intro i hi
    have := readLoop_no_interior_term stream len 0 i hi
    simpa using this
  · intro h
    exact readLoop_stops_at_term stream len 0 h
  · intro h
    have := readLoop_full_of_no_term stream len 0 (by simpa using h)
    simpa [_read] using this

/-- Witness for C3 at a concrete input: a stream of letter bytes with no
terminator in its first 3 bytes yields a full count of 3. -/
theorem c3_read_until_terminator_witness :
    (_read (some ()) 3 (fun _ => 97)).1 = 3 :=
  (c3_read_until_terminator (fun _ => 97) 3).2.2.2.2.2.1 (by decide)

/-- Value of `_LLIO_STDIN`, modelled from the IAR toolchain header
`yfuns.h` (an external collaborator of this repository). -/
def LLIO_STDIN : Nat := 0

/-- Value of `_LLIO_ERROR`, i.e. `((size_t)-1)` on the 32-bit targets this
code runs on; modelled from the IAR toolchain header `yfuns.h`. -/
def LLIO_ERROR : Nat := 4294967295

/-- Embedding of the IAR `__read(handle, buffer, size)` hook: any handle
other than standard input, or a NULL buffer, yields `_LLIO_ERROR` with no
peripheral access; otherwise a single byte is received via
`cy_retarget_io_getchar` (which always succeeds) and 1 is returned.  The
second component lists the bytes consumed from the peripheral. -/
def __read (handle : Nat) (buffer : Option Unit) (stream : Nat → Nat) :
    Nat × List Nat :=
  if handle ≠ LLIO_STDIN ∨ buffer = none then (LLIO_ERROR, [])
  else (1, [(cy_retarget_io_getchar stream 0).2])

/-- Counterexample to C5 as stated: the IAR `__read` entry point (cited by
the claim) called on standard input with a NULL buffer does not return a
zero count — it fails with the `_LLIO_ERROR` error code. -/
theorem c5_counterexample :
    (__read LLIO_STDIN none (fun _ => 0)).1 = LLIO_ERROR ∧
    LLIO_ERROR ≠ 0 := by
  constructor
  · simp [__read]
  · decide

/-- C5 (amended): the GNU `_write` and `_read` hooks treat a NULL buffer
as a zero-length operation — they return a count of 0, touch no state and
perform no peripheral access — while the IAR `__read` hook with a NULL
buffer likewise performs no peripheral access but returns the
`_LLIO_ERROR` code instead of a zero count. -/
theorem c5_null_buffer (convert : Bool) (s : TxState) (n : Nat)
    (stream : Nat → Nat) :
    _write none convert s = (0, s) ∧
    _read none n stream = (0, []) ∧
    __read LLIO_STDIN none stream = (LLIO_ERROR, []) := by
  refine ⟨rfl, rfl, ?_⟩
  simp [__read]

/-- Session lifecycle state.  `channel` models
`cy_retarget_io_uart_obj.channel`; `mutexInited` models the static flag
`cy_retarget_io_mutex_initialized`; `mutexAlive` records whether the RTOS
mutex object currently exists (created by `cy_rtos_init_mutex`, destroyed
by `cy_rtos_deinit_mutex`); `locksCreated` counts how many times a mutex
object has been allocated, to express the no-reallocation guarantees. -/
structure SessionState where
  channel : Option Nat
  mutexInited : Bool
  mutexAlive : Bool
  locksCreated : Nat
deriving DecidableEq, Repr

/-- Embedding of `cy_retarget_io_mutex_init` (the RTOS-aware build): if
the flag is already set, return success untouched; otherwise call
`cy_rtos_init_mutex` — whose result is the environment parameter
`rtosRes` — and set the flag only when it succeeded, returning the RTOS
result unchanged. -/
def cy_retarget_io_mutex_init (rtosRes : Nat) (s : SessionState) :
    Nat × SessionState :=
  if s.mutexInited then (CY_RSLT_SUCCESS, s)
  else if rtosRes = CY_RSLT_SUCCESS then
    (CY_RSLT_SUCCESS,
     { s with
       mutexInited := true
       mutexAlive := true
       locksCreated := s.locksCreated + 1 })
  else (rtosRes, s)

/-- Embedding of `cy_retarget_io_init(base)`: stores the peripheral handle
into `cy_retarget_io_uart_obj.channel` and then returns the result of
`cy_retarget_io_mutex_init`. -/
def cy_retarget_io_init (base rtosRes : Nat) (s : SessionState) :
    Nat × SessionState :=
  cy_retarget_io_mutex_init rtosRes { s with channel := some base }

/-- Embedding of `cy_retarget_io_mutex_deinit` (the RTOS-aware build): it
asserts the flag, destroys the mutex object via `cy_rtos_deinit_mutex`,
and — notably — never clears `cy_retarget_io_mutex_initialized`. -/
def cy_retarget_io_mutex_deinit (s : SessionState) : SessionState :=
  { s with mutexAlive := false }

/-- The session-state effect of `cy_retarget_io_deinit`: after the
bounded transmit-drain wait (which touches no session state) it calls
`cy_retarget_io_mutex_deinit`. -/
def cy_retarget_io_deinit_session (s : SessionState) : SessionState :=
  cy_retarget_io_mutex_deinit s

/-- The `CY_ASSERT(cy_retarget_io_mutex_initialized)` check performed at
the top of `cy_retarget_io_mutex_acquire`, `cy_retarget_io_mutex_release`
and `cy_retarget_io_mutex_deinit`. -/
def mutexAssertPasses (s : SessionState) : Bool := s.mutexInited

/-- C7: the init call stores the peripheral handle; when the mutex flag is
already set it returns success without touching anything else (idempotent,
no reallocation); when the flag is clear it creates the mutex exactly once
on RTOS success, and on RTOS failure it propagates the failure code
unchanged and creates nothing. -/
theorem c7_init_lazy_idempotent (base rtosRes : Nat) (s : SessionState) :
    ((cy_retarget_io_init base rtosRes s).2.channel = some base) ∧
    (s.mutexInited = true →
       cy_retarget_io_init base rtosRes s =
         (CY_RSLT_SUCCESS, { s with channel := some base })) ∧
    (s.mutexInited = false → rtosRes = CY_RSLT_SUCCESS →
       (cy_retarget_io_init base rtosRes s).1 = CY_RSLT_SUCCESS ∧
       (cy_retarget_io_init base rtosRes s).2.locksCreated =
         s.locksCreated + 1) ∧
    (s.mutexInited = false → rtosRes ≠ CY_RSLT_SUCCESS →
       (cy_retarget_io_init base rtosRes s).1 = rtosRes ∧
       (cy_retarget_io_init base rtosRes s).2.locksCreated = s.locksCreated ∧
       (cy_retarget_io_init base rtosRes s).2.mutexInited = false) := by
  refine ⟨?_, ?_, ?_, ?_⟩
  · by_cases h : s.mutexInited <;>
      by_cases hr : rtosRes = CY_RSLT_SUCCESS <;>
      simp [cy_retarget_io_init, cy_retarget_io_mutex_init, h, hr]
  · intro h
    simp [cy_retarget_io_init, cy_retarget_io_mutex_init, h]
  · intro h hr
    simp [cy_retarget_io_init, cy_retarget_io_mutex_init, h, hr]
  · intro h hr
    simp [cy_retarget_io_init, cy_retarget_io_mutex_init, h, hr]

/-- Witness for C7 at a concrete input: re-running init on an
already-flagged session returns success and only (re)stores the handle;
a failing RTOS mutex creation (code 7) is propagated unchanged. -/
theorem c7_init_lazy_idempotent_witness :
    cy_retarget_io_init 5 0 ⟨some 5, true, true, 1⟩ =
      (CY_RSLT_SUCCESS, ⟨some 5, true, true, 1⟩) ∧
    (cy_retarget_io_init 5 7 ⟨none, false, false, 0⟩).1 = 7 :=
  ⟨(c7_init_lazy_idempotent 5 0 ⟨some 5, true, true, 1⟩).2.1 rfl,
   ((c7_init_lazy_idempotent 5 7 ⟨none, false, false, 0⟩).2.2.2 rfl
      (by decide)).1⟩

/-- C10: deinit never clears the mutex flag.  After init (with a
successful mutex creation) followed by deinit, the flag is still set even
though the mutex object was destroyed; a further init call therefore
returns success while creating no new mutex object (the state, including
the allocation count and the dead mutex, is unchanged apart from the
stored handle), and the `CY_ASSERT` guarding acquire/release still
passes. -/
theorem c10_deinit_keeps_flag (base r2 : Nat) (s0 : SessionState) :
    ((cy_retarget_io_deinit_session
        (cy_retarget_io_init base 0 s0).2).mutexInited = true) ∧
    ((cy_retarget_io_deinit_session
        (cy_retarget_io_init base 0 s0).2).mutexAlive = false) ∧
    (cy_retarget_io_init base r2
        (cy_retarget_io_deinit_session (cy_retarget_io_init base 0 s0).2) =
      (CY_RSLT_SUCCESS,
       { cy_retarget_io_deinit_session (cy_retarget_io_init base 0 s0).2 with
         channel := some base })) ∧
    (mutexAssertPasses
       (cy_retarget_io_deinit_session (cy_retarget_io_init base 0 s0).2) =
      true) := by
  by_cases h : s0.mutexInited <;>
    simp [cy_retarget_io_init, cy_retarget_io_mutex_init,
      cy_retarget_io_deinit_session, cy_retarget_io_mutex_deinit,
      mutexAssertPasses, CY_RSLT_SUCCESS, h]

/-- One pre-decrement `--cycle_time_ms` of the `uint32_t` variable:
subtraction of 1 modulo `2^32 = 4294967296` (so decrementing 0 wraps to
4294967295). -/
def decU32 (c : Nat) : Nat := (c + 4294967295) % 4294967296

/-- Continuation of the inner delay loop `while (--cycle_time_ms > 0) { }`
of `cy_retarget_io_deinit` from the current value `v` of `cycle_time_ms`
(always `< 2^32`, so no further wrap can occur): if `v = 0` the decrement
that produced it already made the condition false and the loop has exited;
otherwise one more decrement executes and the loop continues from `v - 1`.
Returns the number of remaining decrement steps and the final value of
`cycle_time_ms`. -/
def innerLoopFrom : Nat → Nat × Nat
  | 0 => (0, 0)
  | v + 1 => ((innerLoopFrom v).1 + 1, (innerLoopFrom v).2)

/-- One full execution of the inner delay loop
`while (--cycle_time_ms > 0) { }` starting from `cycle_time_ms = c`: the
first pre-decrement always executes (wrapping the `uint32_t` when
`c = 0`), after which the loop continues from the decremented value.
Returns the total number of decrement steps and the final value of
`cycle_time_ms`. -/
def innerLoop (c : Nat) : Nat × Nat :=
  ((innerLoopFrom (decU32 c)).1 + 1, (innerLoopFrom (decU32 c)).2)

lemma innerLoopFrom_eq : ∀ v, innerLoopFrom v = (v, 0) := by
  intro v
  induction v with
  | zero => rfl
  | succ k ih => simp [innerLoopFrom, ih]

/-- Running the inner delay loop from a positive 32-bit value `c` takes
exactly `c` decrement steps and leaves `cycle_time_ms = 0`. -/
lemma innerLoop_pos (c : Nat) (h1 : 1 ≤ c) (h2 : c < 4294967296) :
    innerLoop c = (c, 0) := by
  have hd : decU32 c = c - 1 := by
    unfold decU32
    omega
  simp [innerLoop, hd, innerLoopFrom_eq]
  omega

lemma innerLoop_pos_fst (c : Nat) (h1 : 1 ≤ c) (h2 : c < 4294967296) :
    (innerLoop c).1 = c := by
  rw [innerLoop_pos c h1 h2]

lemma innerLoop_pos_snd (c : Nat) (h1 : 1 ≤ c) (h2 : c < 4294967296) :
    (innerLoop c).2 = 0 := by
  rw [innerLoop_pos c h1 h2]

/-- Running the inner delay loop from `cycle_time_ms = 0` wraps the
`uint32_t` around and takes `2^32` decrement steps. -/
lemma innerLoop_zero : innerLoop 0 = (4294967296, 0) := by
  have hd : decU32 0 = 4294967295 := by
    unfold decU32
    omega
  simp [innerLoop, hd, innerLoopFrom_eq]

/-- Embedding of the outer polling loop of `cy_retarget_io_deinit`
(`while (timeout_remaining_ms > 0)`), counting the total number of inner
decrement steps executed.  `active t` is the value the
`cy_retarget_io_is_tx_active()` poll returns when `timeout_remaining_ms`
equals `t`; `c` is the current `cycle_time_ms`, which — exactly as in the
source — is declared once and never re-initialized between iterations, so
each iteration continues from the value the previous inner loop left
behind. -/
def deinitLoop (active : Nat → Bool) : Nat → Nat → Nat
  | 0, _ => 0
  | Nat.succ t, c =>
    if active (Nat.succ t) then
      (innerLoop c).1 + deinitLoop active t (innerLoop c).2
    else 0

/-- Total number of `cycle_time_ms` decrement steps executed by
`cy_retarget_io_deinit` before giving up, for a given `SystemCoreClock`:
`timeout_remaining_ms` starts at 1000 and `cycle_time_ms` starts at
`SystemCoreClock / 1000`. -/
def cy_retarget_io_deinit_steps (active : Nat → Bool) (clock : Nat) : Nat :=
  deinitLoop active 1000 (clock / 1000)

lemma deinitLoop_true_succ (t c : Nat) :
    deinitLoop (fun _ => true) (t + 1) c =
      (innerLoop c).1 + deinitLoop (fun _ => true) t (innerLoop c).2 := by
  simp [deinitLoop]

/-- With transmission permanently busy, every outer iteration after the
first starts from `cycle_time_ms = 0` and therefore spins for a full
`2^32` decrements. -/
lemma deinitLoop_true_from_zero :
    ∀ t, deinitLoop (fun _ => true) t 0 = t * 4294967296 := by
  intro t
  induction t with
  | zero => simp [deinitLoop]
  | succ k ih =>
    rw [deinitLoop_true_succ, innerLoop_zero]
    simp [ih]
    omega

/-- C4 is violated by the code: with the transmit-busy query permanently
true and `SystemCoreClock = 144 MHz`, the polling loop does perform at
most 1000 delay iterations, but because `cycle_time_ms` is never
re-initialized inside the loop, only the first iteration delays
`SystemCoreClock / 1000` decrement steps — each of the remaining 999
delays wraps the `uint32_t` and spins for `2^32` decrements, so the total
wait is vastly larger than the intended bound of
`1000 * (SystemCoreClock / 1000)` steps (roughly 1000 ms). -/
theorem c4_deinit_delay_overrun :
    cy_retarget_io_deinit_steps (fun _ => true) 144000000 =
      144000 + 999 * 4294967296 ∧
    1000 * (144000000 / 1000) <
      cy_retarget_io_deinit_steps (fun _ => true) 144000000 := by
  have hdiv : (144000000 : Nat) / 1000 = 144000 := by norm_num
  have h1000 : (1000 : Nat) = 999 + 1 := rfl
  have hsteps : cy_retarget_io_deinit_steps (fun _ => true) 144000000 =
      144000 + 999 * 4294967296 := by
    unfold cy_retarget_io_deinit_steps
    rw [hdiv, h1000, deinitLoop_true_succ,
      innerLoop_pos_fst 144000 (by norm_num) (by norm_num),
      innerLoop_pos_snd 144000 (by norm_num) (by norm_num),
      deinitLoop_true_from_zero 999]
  exact ⟨hsteps, by rw [hsteps]; norm_num⟩

/-- Phase of one writer thread executing the GNU `_write` hook in the
RTOS-aware build: before `cy_retarget_io_mutex_acquire`, inside the
transmit loop, or after `cy_retarget_io_mutex_release`. -/
inductive Phase
  | waiting
  | emitting
  | done
deriving DecidableEq, Repr

/-- A writer thread: its phase and the bytes of its buffer not yet
transmitted.  (Line-ending translation is orthogonal to the locking and
is left out of the concurrency model: each emitted byte stands for one
transmitted byte.) -/
structure Writer where
  phase : Phase
  rem : List Nat
deriving DecidableEq, Repr

/-- Global state of two concurrent `_write` calls A and B: the two
writers, the current holder of `cy_retarget_io_mutex` (`none` when free,
`some false` for A, `some true` for B), and the bytes transmitted to the
UART so far, in order. -/
structure Conc where
  wA : Writer
  wB : Writer
  holder : Option Bool
  out : List Nat
deriving DecidableEq, Repr

/-- Interleaving semantics of two concurrent `_write` calls.  Each call
acquires the mutex before its loop (`cy_rtos_get_mutex` with
`CY_RTOS_NEVER_TIMEOUT` blocks while the other writer holds it), transmits
its bytes one at a time while holding the mutex, and releases the mutex
only after its loop is finished — exactly the structure of `_write`. -/
inductive WStep : Conc → Conc → Prop
  | acquireA (s : Conc) (h1 : s.holder = none)
      (h2 : s.wA.phase = Phase.waiting) :
      WStep s { s with
                holder := some false
                wA := { s.wA with phase := Phase.emitting } }
  | emitA (s : Conc) (c : Nat) (rest : List Nat)
      (h1 : s.holder = some false) (h2 : s.wA.phase = Phase.emitting)
      (h3 : s.wA.rem = c :: rest) :
      WStep s { s with
                out := s.out ++ [c]
                wA := { s.wA with rem := rest } }
  | releaseA (s : Conc) (h1 : s.holder = some false)
      (h2 : s.wA.phase = Phase.emitting) (h3 : s.wA.rem = []) :
      WStep s { s with
                holder := none
                wA := { s.wA with phase := Phase.done } }
  | acquireB (s : Conc) (h1 : s.holder = none)
      (h2 : s.wB.phase = Phase.waiting) :
      WStep s { s with
                holder := some true
                wB := { s.wB with phase := Phase.emitting } }
  | emitB (s : Conc) (c : Nat) (rest : List Nat)
      (h1 : s.holder = some true) (h2 : s.wB.phase = Phase.emitting)
      (h3 : s.wB.rem = c :: rest) :
      WStep s { s with
                out := s.out ++ [c]
                wB := { s.wB with rem := rest } }
  | releaseB (s : Conc) (h1 : s.holder = some true)
      (h2 : s.wB.phase = Phase.emitting) (h3 : s.wB.rem = []) :
      WStep s { s with
                holder := none
                wB := { s.wB with phase := Phase.done } }

/-- Initial state of the two-writer scenario: both calls pending with
their full buffers, mutex free, nothing transmitted. -/
def concInit (A B : List Nat) : Conc :=
  ⟨⟨Phase.waiting, A⟩, ⟨Phase.waiting, B⟩, none, []⟩

/-- Inductive invariant of the two-writer system: at every reachable
state the output is a prefix-block decomposition in which the bytes of
the two calls never interleave — whichever call acquired the mutex first
has its block complete before the other call emits anything. -/
inductive ConcInv (A B : List Nat) : Conc → Prop
  | bothWaiting :
      ConcInv A B ⟨⟨Phase.waiting, A⟩, ⟨Phase.waiting, B⟩, none, []⟩
  | firstA (e r : List Nat) (h : A = e ++ r) :
      ConcInv A B ⟨⟨Phase.emitting, r⟩, ⟨Phase.waiting, B⟩, some false, e⟩
  | doneA :
      ConcInv A B ⟨⟨Phase.done, []⟩, ⟨Phase.waiting, B⟩, none, A⟩
  | thenB (e r : List Nat) (h : B = e ++ r) :
      ConcInv A B ⟨⟨Phase.done, []⟩, ⟨Phase.emitting, r⟩, some true, A ++ e⟩
  | doneAB :
      ConcInv A B ⟨⟨Phase.done, []⟩, ⟨Phase.done, []⟩, none, A ++ B⟩
  | firstB (e r : List Nat) (h : B = e ++ r) :
      ConcInv A B ⟨⟨Phase.waiting, A⟩, ⟨Phase.emitting, r⟩, some true, e⟩
  | doneB :
      ConcInv A B ⟨⟨Phase.waiting, A⟩, ⟨Phase.done, []⟩, none, B⟩
  | thenA (e r : List Nat) (h : A = e ++ r) :
      ConcInv A B ⟨⟨Phase.emitting, r⟩, ⟨Phase.done, []⟩, some false, B ++ e⟩
  | doneBA :
      ConcInv A B ⟨⟨Phase.done, []⟩, ⟨Phase.done, []⟩, none, B ++ A⟩

lemma concInv_step (A B : List Nat) {s t : Conc} (hst : WStep s t)
    (hs : ConcInv A B s) : ConcInv A B t := by
  cases hst with
  | acquireA h1 h2 =>
    cases hs with
    | bothWaiting => exact ConcInv.firstA [] A (by simp)
    | firstA e r hE => simp at h1
    | doneA => simp at h2
    | thenB e r hE => simp at h1
    | doneAB => simp at h2
    | firstB e r hE => simp at h1
    | doneB =>
      have h9 := ConcInv.thenA (A := A) (B := B) [] A (by simp)
      simpa using h9
    | thenA e r hE => simp at h1
    | doneBA => simp at h2
  | emitA c rest h1 h2 h3 =>
    cases hs with
    | bothWaiting => simp at h1
    | firstA e r hE =>
      simp at h3
      subst h3
      exact ConcInv.firstA (e ++ [c]) rest (by simp [hE])
    | doneA => simp at h1
    | thenB e r hE => simp at h1
    | doneAB => simp at h1
    | firstB e r hE => simp at h1
    | doneB => simp at h1
    | thenA e r hE =>
      simp at h3
      subst h3
      have h9 := ConcInv.thenA (A := A) (B := B) (e ++ [c]) rest (by simp [hE])
      simpa using h9
    | doneBA => simp at h1
  | releaseA h1 h2 h3 =>
    cases hs with
    | bothWaiting => simp at h1
    | firstA e r hE =>
      simp at h3
      subst h3
      simp only [List.append_nil] at hE
      subst hE
      exact ConcInv.doneA
    | doneA => simp at h1
    | thenB e r hE => simp at h1
    | doneAB => simp at h1
    | firstB e r hE => simp at h1
    | doneB => simp at h1
    | thenA e r hE =>
      simp at h3
      subst h3
      simp only [List.append_nil] at hE
      subst hE
      exact ConcInv.doneBA
    | doneBA => simp at h1
  | acquireB h1 h2 =>
    cases hs with
    | bothWaiting => exact ConcInv.firstB [] B (by simp)
    | firstA e r hE => simp at h1
    | doneA =>
      have h9 := ConcInv.thenB (A := A) (B := B) [] B (by simp)
      simpa using h9
    | thenB e r hE => simp at h1
    | doneAB => simp at h2
    | firstB e r hE => simp at h1
    | doneB => simp at h2
    | thenA e r hE => simp at h1
    | doneBA => simp at h2
  | emitB c rest h1 h2 h3 =>
    cases hs with
    | bothWaiting => simp at h1
    | firstA e r hE => simp at h1
    | doneA => simp at h1
    | thenB e r hE =>
      simp at h3
      subst h3
      have h9 := ConcInv.thenB (A := A) (B := B) (e ++ [c]) rest (by simp [hE])
      simpa using h9
    | doneAB => simp at h1
    | firstB e r hE =>
      simp at h3
      subst h3
      exact ConcInv.firstB (e ++ [c]) rest (by simp [hE])
    | doneB => simp at h1
    | thenA e r hE => simp at h1
    | doneBA => simp at h1
  | releaseB h1 h2 h3 =>
    cases hs with
    | bothWaiting => simp at h1
    | firstA e r hE => simp at h1
    | doneA => simp at h1
    | thenB e r hE =>
      simp at h3
      subst h3
      simp only [List.append_nil] at hE
      subst hE
      exact ConcInv.doneAB
    | doneAB => simp at h1
    | firstB e r hE =>
      simp at h3
      subst h3
      simp only [List.append_nil] at hE
      subst hE
      exact ConcInv.doneB
    | doneB => simp at h1
    | thenA e r hE => simp at h1
    | doneBA => simp at h1

/-- Every state reachable from the initial two-writer state satisfies the
block-decomposition invariant. -/
lemma concInv_reachable (A B : List Nat) (s : Conc)
    (hrun : Relation.ReflTransGen WStep (concInit A B) s) :
    ConcInv A B s := by
  induction hrun with
  | refl => exact ConcInv.bothWaiting
  | tail hsteps hstep ih => exact concInv_step A B hstep ih

/-- C8: the mutex fully serializes two concurrent multi-byte writes.  In
every execution of the two-writer system in which both `_write` calls
have completed, the transmitted stream is one caller's complete buffer
followed by the other's — no interleaving of bytes from the two calls is
possible. -/
theorem c8_serialized_writes (A B : List Nat) (s : Conc)
    (hrun : Relation.ReflTransGen WStep (concInit A B) s)
    (hA : s.wA.phase = Phase.done) (hB : s.wB.phase = Phase.done) :
    s.out = A ++ B ∨ s.out = B ++ A := by
  have hinv : ConcInv A B s := concInv_reachable A B s hrun
  cases hinv with
  | bothWaiting => simp at hA
  | firstA e r hE => simp at hA
  | doneA => simp at hB
  | thenB e r hE => simp at hB
  | doneAB => exact Or.inl rfl
  | firstB e r hE => simp at hA
  | doneB => simp at hA
  | thenA e r hE => simp at hA
  | doneBA => exact Or.inr rfl

/-- Witness for C8 at a concrete input: the run in which writer A (buffer
`[1]`) takes the mutex first and writer B (buffer `[2]`) follows reaches
a completed state whose output is one full buffer followed by the
other. -/
theorem c8_serialized_writes_witness :
    (⟨⟨Phase.done, []⟩, ⟨Phase.done, []⟩, none, [1, 2]⟩ : Conc).out =
        [1] ++ [2] ∨
    (⟨⟨Phase.done, []⟩, ⟨Phase.done, []⟩, none, [1, 2]⟩ : Conc).out =
        [2] ++ [1] := by
  have hrun : Relation.ReflTransGen WStep (concInit [1] [2])
      ⟨⟨Phase.done, []⟩, ⟨Phase.done, []⟩, none, [1, 2]⟩ := by
    refine Relation.ReflTransGen.head (WStep.acquireA _ rfl rfl) ?_
    refine Relation.ReflTransGen.head (WStep.emitA _ 1 [] rfl rfl rfl) ?_
    refine Relation.ReflTransGen.head (WStep.releaseA _ rfl rfl rfl) ?_
    refine Relation.ReflTransGen.head (WStep.acquireB _ rfl rfl) ?_
    refine Relation.ReflTransGen.head (WStep.emitB _ 2 [] rfl rfl rfl) ?_
    exact Relation.ReflTransGen.single (WStep.releaseB _ rfl rfl rfl)
  exact c8_serialized_writes [1] [2] _ hrun rfl rfl

end Retarget
